import Mathlib

/-!
Verification of the attachment upload orchestrator (`antrag-file-utils`):
`validateAntragFiles`, `uploadAntragFiles` and `deleteAntragFiles`, embedded
shallowly.  Blob-store I/O is modelled by an `Oracle` fixing the outcome of
every `put`/`del` call, and every run records a chronological `trace` of the
store-level operations it issued (plus one `delBatch` marker per invocation
of the deletion contract), so that ordering, rollback and retry/backoff
properties can be stated over the trace.
-/

set_option linter.unusedVariables false
set_option autoImplicit false

namespace Antrag

/-- A client-supplied file: display name, declared media type, byte length.
The binary content plays no role in the orchestration logic modelled here. -/
structure AFile where
  name : String
  ftype : String
  size : Nat
deriving DecidableEq, Repr

/-- Deterministic environment for one run: `putOk i a` is the outcome of the
store `put` for file index `i` at (0-indexed) attempt `a`; `delOk n` is the
outcome of the n-th store `del` call of the run.  Any concrete execution of
the original code corresponds to one such oracle. -/
structure Oracle where
  putOk : Nat → Nat → Bool
  delOk : Nat → Bool

/-- One observable effect: a store `put` with its pathname and outcome, an
invocation of the deletion contract (`delBatch`, with the requested URLs), a
store-level `del` call with its URL list and outcome, or an awaited delay. -/
inductive Event where
  | put (pathname : String) (ok : Bool)
  | delBatch (urls : List String)
  | del (urls : List String) (ok : Bool)
  | sleep (ms : Int)
deriving DecidableEq, Repr

/-- Run state: how many store `del` calls happened so far (to index the
oracle) and the chronological trace of effects. -/
structure BlobState where
  dels : Nat
  trace : List Event
deriving DecidableEq, Repr

/-- Return value of `deleteAntragFiles`: success flag plus the URLs actually
removed. -/
structure DeletionOutcome where
  success : Bool
  deletedUrls : List String
deriving DecidableEq, Repr

/-- The values the orchestrator can raise: a `ValidationError` carrying a
field-to-message mapping, the typed file-upload `AppError`, or any other
thrown value (modelled opaquely: the code never inspects such a value). -/
inductive Err where
  | validation (fields : List (String × String))
  | appFileUpload (msg : String)
  | other
deriving DecidableEq, Repr

/-- Validation limits consumed from the shared configuration collaborator
(`FILE_SIZE_LIMITS` / `FILE_TYPES`); their numeric values live outside the
repository files provided, so they are parameters of the embedding. -/
structure FileConfig where
  countLimit : Nat
  perFileLimit : Nat
  totalLimit : Nat
  allowedTypes : List String
deriving Repr

/-- Result shape of the shared validation routine `validateFiles`. -/
structure ValidateFilesResult where
  isValid : Bool
  errors : Option (List String)
deriving DecidableEq, Repr

/-- URL the blob store answers for a stored pathname.  The code calls `put`
with `addRandomSuffix: false`, so the URL is a function of the pathname. -/
def putUrl (pathname : String) : String :=
  "https://blob.vercel-storage.com/" ++ pathname

/-- One store `put` for file index `i`, attempt `a`: outcome from the oracle,
recorded in the trace.  Raises (returns `Except.error`) on failure. -/
def putCall (o : Oracle) (s : BlobState) (i a : Nat) (pathname : String) :
    Except Unit String × BlobState :=
  let ok := o.putOk i a
  ((if ok then Except.ok (putUrl pathname) else Except.error ()),
   { s with trace := s.trace ++ [Event.put pathname ok] })

/-- One store `del` covering `urls`: outcome from the oracle (indexed by the
running `del`-call counter), recorded in the trace. -/
def delCall (o : Oracle) (s : BlobState) (urls : List String) :
    Except Unit Unit × BlobState :=
  let ok := o.delOk s.dels
  ((if ok then Except.ok () else Except.error ()),
   { dels := s.dels + 1, trace := s.trace ++ [Event.del urls ok] })

/-- An awaited delay of `ms` milliseconds, recorded in the trace. -/
def sleepCall (s : BlobState) (ms : Int) : BlobState :=
  { s with trace := s.trace ++ [Event.sleep ms] }

/-- Decimal digit list of `n`, most significant first, with explicit fuel
(the fuel argument makes the recursion structural; `natReprChars` supplies
enough).  Embeds the JavaScript number-to-string rendering used by the
template literal that builds the blob pathname. -/
def natReprCharsAux : Nat → Nat → List Char
  | 0, _ => []
  | fuel + 1, n =>
    if n < 10 then [Nat.digitChar n]
    else natReprCharsAux fuel (n / 10) ++ [Nat.digitChar (n % 10)]

/-- Decimal rendering of a natural number as a character list. -/
def natReprChars (n : Nat) : List Char :=
  natReprCharsAux (n + 1) n

/-- The characters the JavaScript regex class for whitespace matches among
code points that occur in file names (space, tab, line and page breaks,
carriage return, vertical tab, no-break space). -/
def isJsWhitespace (c : Char) : Bool :=
  c == ' ' || c == '\t' || c == '\n' || c == '\r' || c == '\x0b' ||
    c == '\x0c' || c == ' '

/-- Replaces every maximal run of whitespace by a single dash, as the
replacement of the global whitespace-run regex by a dash does; `inRun` says
whether the previous character was part of a whitespace run. -/
def sanitizeAux (inRun : Bool) : List Char → List Char
  | [] => []
  | c :: rest =>
    if isJsWhitespace c then
      if inRun then sanitizeAux true rest
      else '-' :: sanitizeAux true rest
    else c :: sanitizeAux false rest

/-- `file.name.replace` of every whitespace run by `'-'`. -/
def sanitizeFileName (name : String) : String :=
  String.mk (sanitizeAux false name.data)

/-- The blob pathname of the file at index `i` of a batch with the shared
upload timestamp `timestamp`: the template literal
`antraege/<timestamp>-<i>-<sanitizedFileName>`. -/
def blobPathname (timestamp i : Nat) (sanitizedFileName : String) : String :=
  String.mk ("antraege/".data ++ natReprChars timestamp ++ ['-'] ++
    natReprChars i ++ ['-'] ++ sanitizedFileName.data)

/-- The user-facing message of the typed file-upload error raised when one
file exhausts its attempts; it names the failed file. -/
def uploadFailMessage (fileName : String) : String :=
  "Fehler beim Hochladen der Datei \"" ++ fileName ++
    "\". Bitte versuchen Sie es später erneut."

/-- The user-facing message of the generic file-upload error raised for an
unexpected fault. -/
def genericUploadMessage : String :=
  "Fehler beim Hochladen der Dateien. Bitte versuchen Sie es später erneut."

/-- Modelled from the spec: the validation-messages module is not among the
repository files provided; `required` renders a user-facing message that a
field is required. -/
def requiredMessage (field : String) : String :=
  field ++ " ist erforderlich"

/-- Modelled from the spec: the validation-messages module is not among the
repository files provided; `fileSizeExceeds` renders a user-facing message
that a field exceeds a size limit in megabytes. -/
def fileSizeExceedsMessage (field : String) (maxSizeMB : Nat) : String :=
  field ++ ": Dateigröße überschreitet " ++ String.mk (natReprChars maxSizeMB) ++ " MB"

/-- Modelled from the spec: the shared validation routine `validateFiles`
from the validation/file-schemas module is not among the repository files
provided.  Per the spec it is pure and synchronous, checks the file count
against the count limit, each file's size against the per-file limit and
each file's media type against the allow-list, and returns a validity flag
with an optional list of error messages. -/
def validateFiles (files : List AFile) (countLimit perFileLimit : Nat)
    (allowedTypes : List String) : ValidateFilesResult :=
  let countErrors :=
    if files.length ≤ countLimit then [] else ["Zu viele Dateien"]
  let sizeErrors :=
    if files.all (fun file => decide (file.size ≤ perFileLimit)) then []
    else ["Eine Datei ist zu groß"]
  let typeErrors :=
    if files.all (fun file => allowedTypes.contains file.ftype) then []
    else ["Dateityp nicht erlaubt"]
  let errors := countErrors ++ sizeErrors ++ typeErrors
  if errors.isEmpty then { isValid := true, errors := none }
  else { isValid := false, errors := some errors }

/-- `validateAntragFiles` (source lines 43-71): empty batch is a no-op; the
shared `validateFiles` routine covers count, per-file size and type; the
aggregate total-size check follows separately.  Raising a `ValidationError`
is modelled by `Except.error` carrying the field-to-message mapping. -/
def validateAntragFiles (cfg : FileConfig) (files : List AFile) :
    Except (List (String × String)) Unit :=
  if files = [] then Except.ok ()
  else
    let validationResult :=
      validateFiles files cfg.countLimit cfg.perFileLimit cfg.allowedTypes
    if validationResult.isValid = false ∧ validationResult.errors ≠ none then
      Except.error
        [("files", (validationResult.errors.getD []).headD (requiredMessage "files"))]
    else
      let totalSize := files.foldl (fun sum file => sum + file.size) 0
      if totalSize > cfg.totalLimit then
        Except.error
          [("files", fileSizeExceedsMessage "files" (cfg.totalLimit / (1024 * 1024)))]
      else
        Except.ok ()

/-- The retry loop of `deleteAntragFiles` (source lines 192-230):
`while (attempt <= maxRetries && remainingUrls.length > 0)`.  `fuel` makes
the recursion structural; the wrapper passes `(maxRetries + 1).toNat`, which
is exhausted only when the loop condition is false as well, and the
fuel-exhausted branch returns exactly the after-loop result of the source
(lines 233-237), so the two exits coincide. -/
def deleteLoop (o : Oracle) (fuel : Nat) (s : BlobState) (urls : List String)
    (maxRetries retryDelay : Int) (attempt : Nat)
    (deletedUrls remainingUrls : List String) : DeletionOutcome × BlobState :=
  match fuel with
  | 0 =>
    ({ success := decide (deletedUrls.length = urls.length),
       deletedUrls := deletedUrls }, s)
  | f + 1 =>
    if (attempt : Int) ≤ maxRetries ∧ remainingUrls ≠ [] then
      match delCall o s remainingUrls with
      | (Except.ok _, s1) =>
        ({ success := true, deletedUrls := deletedUrls ++ remainingUrls }, s1)
      | (Except.error _, s1) =>
        if (attempt : Int) ≥ maxRetries then
          ({ success := false, deletedUrls := deletedUrls }, s1)
        else
          deleteLoop o f (sleepCall s1 (retryDelay * (2 : Int) ^ attempt)) urls
            maxRetries retryDelay (attempt + 1) deletedUrls remainingUrls
    else
      ({ success := decide (deletedUrls.length = urls.length),
         deletedUrls := deletedUrls }, s)

/-- `deleteAntragFiles` (source lines 183-238): empty input succeeds
trivially; otherwise the whole remaining set is deleted in one store call
per attempt, retried with exponential backoff.  Storage-layer failures are
caught; the function reports its outcome via the returned structure only.
Each invocation of this deletion contract is marked in the trace by one
`Event.delBatch` carrying the requested URLs. -/
def deleteAntragFiles (o : Oracle) (s : BlobState) (urls : List String)
    (maxRetries retryDelay : Int) : DeletionOutcome × BlobState :=
  let s0 : BlobState := { s with trace := s.trace ++ [Event.delBatch urls] }
  if urls = [] then ({ success := true, deletedUrls := [] }, s0)
  else deleteLoop o (maxRetries + 1).toNat s0 urls maxRetries retryDelay 0 [] urls

/-- The per-file retry loop of `uploadAntragFiles` (source lines 105-151):
`while (attempt <= maxRetries && !uploaded)`.  On success returns the stored
URL; on the last failed attempt it first attempts the compensating deletion
of `uploadedUrls` (with the deletion contract's default retry parameters,
its own failure swallowed) and then raises the typed file-upload error
naming the file; between failed attempts it awaits
`retryDelay * 2 ^ attempt`.  `fuel` makes the recursion structural; the
wrapper passes `(maxRetries + 1).toNat`, exhausted only when the loop
condition is false as well, and both loop exits return `none` ("uploaded"
still false), after which the surrounding for-loop moves on. -/
def uploadFileLoop (o : Oracle) (fuel : Nat) (s : BlobState)
    (uploadedUrls : List String) (i : Nat) (file : AFile) (pathname : String)
    (maxRetries retryDelay : Int) (attempt : Nat) :
    Except Err (Option String) × BlobState :=
  match fuel with
  | 0 => (Except.ok none, s)
  | f + 1 =>
    if (attempt : Int) ≤ maxRetries then
      match putCall o s i attempt pathname with
      | (Except.ok url, s1) => (Except.ok (some url), s1)
      | (Except.error _, s1) =>
        if (attempt : Int) ≥ maxRetries then
          let s2 :=
            if uploadedUrls.length > 0 then
              (deleteAntragFiles o s1 uploadedUrls 3 1000).2
            else s1
          (Except.error (Err.appFileUpload (uploadFailMessage file.name)), s2)
        else
          uploadFileLoop o f (sleepCall s1 (retryDelay * (2 : Int) ^ attempt))
            uploadedUrls i file pathname maxRetries retryDelay (attempt + 1)
    else
      (Except.ok none, s)

/-- The sequential for-loop of `uploadAntragFiles` (source lines 100-153):
files processed in input order, each URL pushed onto the accumulator.  The
middle component of the result is the accumulator at exit, which the catch
block of the source reads when an error propagates. -/
def uploadFilesLoop (o : Oracle) (s : BlobState) (timestamp : Nat)
    (maxRetries retryDelay : Int) (files : List AFile) (i : Nat)
    (uploadedUrls : List String) :
    Except Err (List String) × List String × BlobState :=
  match files with
  | [] => (Except.ok uploadedUrls, uploadedUrls, s)
  | file :: rest =>
    let pathname := blobPathname timestamp i (sanitizeFileName file.name)
    match uploadFileLoop o (maxRetries + 1).toNat s uploadedUrls i file pathname
        maxRetries retryDelay 0 with
    | (Except.ok (some url), s1) =>
      uploadFilesLoop o s1 timestamp maxRetries retryDelay rest (i + 1)
        (uploadedUrls ++ [url])
    | (Except.ok none, s1) =>
      uploadFilesLoop o s1 timestamp maxRetries retryDelay rest (i + 1)
        uploadedUrls
    | (Except.error e, s1) => (Except.error e, uploadedUrls, s1)

/-- The catch block of `uploadAntragFiles` (source lines 154-172):
`ValidationError` and `AppError` instances are re-raised unchanged; any
other raised value triggers the compensating deletion of `uploadedUrls`
(its own failure swallowed) and is normalised into the generic file-upload
application error. -/
def catchHandler (o : Oracle) (s : BlobState) (e : Err)
    (uploadedUrls : List String) : Except Err (List String) × BlobState :=
  match e with
  | Err.validation fields => (Except.error (Err.validation fields), s)
  | Err.appFileUpload msg => (Except.error (Err.appFileUpload msg), s)
  | Err.other =>
    let s1 :=
      if uploadedUrls.length > 0 then
        (deleteAntragFiles o s uploadedUrls 3 1000).2
      else s
    (Except.error (Err.appFileUpload genericUploadMessage), s1)

/-- `uploadAntragFiles` (source lines 82-173): validate first (a validation
failure aborts before any store call), return `[]` for an empty batch,
otherwise run the sequential upload loop under the catch block.  The shared
batch timestamp is an explicit parameter of the embedding. -/
def uploadAntragFiles (cfg : FileConfig) (o : Oracle) (s : BlobState)
    (timestamp : Nat) (files : List AFile) (maxRetries retryDelay : Int) :
    Except Err (List String) × BlobState :=
  match validateAntragFiles cfg files with
  | Except.error fields => (Except.error (Err.validation fields), s)
  | Except.ok _ =>
    if files = [] then (Except.ok [], s)
    else
      match uploadFilesLoop o s timestamp maxRetries retryDelay files 0 [] with
      | (Except.ok urls, _, s1) => (Except.ok urls, s1)
      | (Except.error e, uploadedUrls, s1) => catchHandler o s1 e uploadedUrls

/-- The pathnames of the store `put` calls recorded in a trace. -/
def putPaths (tr : List Event) : List String :=
  tr.filterMap fun e =>
    match e with
    | Event.put pathname _ => some pathname
    | _ => none

/-- The URL lists of the store-level `del` calls recorded in a trace. -/
def delPayloads (tr : List Event) : List (List String) :=
  tr.filterMap fun e =>
    match e with
    | Event.del urls _ => some urls
    | _ => none

/-- The URL lists of the deletion-contract invocations recorded in a trace. -/
def delBatchPayloads (tr : List Event) : List (List String) :=
  tr.filterMap fun e =>
    match e with
    | Event.delBatch urls => some urls
    | _ => none

/-- The URLs a fully successful upload of `files` returns, starting at batch
index `i`: one per file, in input order, each determined by the file's
pathname. -/
def expectedUrls (timestamp : Nat) (i : Nat) : List AFile → List String
  | [] => []
  | file :: rest =>
    putUrl (blobPathname timestamp i (sanitizeFileName file.name)) ::
      expectedUrls timestamp (i + 1) rest

/-- The effect trace of a per-file retry loop whose first `d` attempts
(numbered from `attempt`) fail and whose next attempt succeeds: `d` failed
puts, each followed by the awaited exponential-backoff delay, then the
successful put. -/
def succRun (pathname : String) (retryDelay : Int) (attempt : Nat) :
    Nat → List Event
  | 0 => [Event.put pathname true]
  | d + 1 =>
    Event.put pathname false :: Event.sleep (retryDelay * (2 : Int) ^ attempt) ::
      succRun pathname retryDelay (attempt + 1) d

/-- The effect trace of a per-file retry loop all of whose `d + 1` attempts
(numbered from `attempt`) fail: `d + 1` failed puts with the awaited
exponential-backoff delay between consecutive attempts (and none after the
last, which raises instead). -/
def failRun (pathname : String) (retryDelay : Int) (attempt : Nat) :
    Nat → List Event
  | 0 => [Event.put pathname false]
  | d + 1 =>
    Event.put pathname false :: Event.sleep (retryDelay * (2 : Int) ^ attempt) ::
      failRun pathname retryDelay (attempt + 1) d

/-- The effect trace of uploading `files` (batch indices from `i`) when the
file at batch index `j` first succeeds at attempt `A j`. -/
def succTraces (timestamp : Nat) (retryDelay : Int) (A : Nat → Nat)
    (i : Nat) : List AFile → List Event
  | [] => []
  | file :: rest =>
    succRun (blobPathname timestamp i (sanitizeFileName file.name)) retryDelay 0 (A i) ++
      succTraces timestamp retryDelay A (i + 1) rest

/-- Value of a decimal digit list, most significant first. -/
def parseDigits (cs : List Char) : Nat :=
  cs.foldl (fun acc c => 10 * acc + (c.toNat - 48)) 0


@[simp] theorem putPaths_nil : putPaths [] = [] := rfl

@[simp] theorem putPaths_cons_put (p : String) (ok : Bool) (tr : List Event) :
    putPaths (Event.put p ok :: tr) = p :: putPaths tr := rfl

@[simp] theorem putPaths_cons_del (us : List String) (ok : Bool) (tr : List Event) :
    putPaths (Event.del us ok :: tr) = putPaths tr := rfl

@[simp] theorem putPaths_cons_delBatch (us : List String) (tr : List Event) :
    putPaths (Event.delBatch us :: tr) = putPaths tr := rfl

@[simp] theorem putPaths_cons_sleep (ms : Int) (tr : List Event) :
    putPaths (Event.sleep ms :: tr) = putPaths tr := rfl

@[simp] theorem putPaths_append (a b : List Event) :
    putPaths (a ++ b) = putPaths a ++ putPaths b := by
  simp [putPaths]

@[simp] theorem delPayloads_nil : delPayloads [] = [] := rfl

@[simp] theorem delPayloads_cons_put (p : String) (ok : Bool) (tr : List Event) :
    delPayloads (Event.put p ok :: tr) = delPayloads tr := rfl

@[simp] theorem delPayloads_cons_del (us : List String) (ok : Bool) (tr : List Event) :
    delPayloads (Event.del us ok :: tr) = us :: delPayloads tr := rfl

@[simp] theorem delPayloads_cons_delBatch (us : List String) (tr : List Event) :
    delPayloads (Event.delBatch us :: tr) = delPayloads tr := rfl

@[simp] theorem delPayloads_cons_sleep (ms : Int) (tr : List Event) :
    delPayloads (Event.sleep ms :: tr) = delPayloads tr := rfl

@[simp] theorem delPayloads_append (a b : List Event) :
    delPayloads (a ++ b) = delPayloads a ++ delPayloads b := by
  simp [delPayloads]

@[simp] theorem delBatchPayloads_nil : delBatchPayloads [] = [] := rfl

@[simp] theorem delBatchPayloads_cons_put (p : String) (ok : Bool) (tr : List Event) :
    delBatchPayloads (Event.put p ok :: tr) = delBatchPayloads tr := rfl

@[simp] theorem delBatchPayloads_cons_del (us : List String) (ok : Bool) (tr : List Event) :
    delBatchPayloads (Event.del us ok :: tr) = delBatchPayloads tr := rfl

@[simp] theorem delBatchPayloads_cons_delBatch (us : List String) (tr : List Event) :
    delBatchPayloads (Event.delBatch us :: tr) = us :: delBatchPayloads tr := rfl

@[simp] theorem delBatchPayloads_cons_sleep (ms : Int) (tr : List Event) :
    delBatchPayloads (Event.sleep ms :: tr) = delBatchPayloads tr := rfl

@[simp] theorem delBatchPayloads_append (a b : List Event) :
    delBatchPayloads (a ++ b) = delBatchPayloads a ++ delBatchPayloads b := by
  simp [delBatchPayloads]

theorem deleteLoop_shape (o : Oracle) (urls : List String) (m rd : Int)
    (del rem : List String) :
    ∀ (fuel : Nat) (a : Nat) (s : BlobState), ∃ Δ,
      (deleteLoop o fuel s urls m rd a del rem).2.trace = s.trace ++ Δ ∧
      delBatchPayloads Δ = [] ∧
      (∀ us ∈ delPayloads Δ, us = rem) ∧
      putPaths Δ = [] := by
  intro fuel
  induction fuel with
  | zero =>
    intro a s
    exact ⟨[], by simp [deleteLoop]⟩
  | succ f ih =>
    intro a s
    rw [deleteLoop]
    by_cases h : (a : Int) ≤ m ∧ rem ≠ []
    · rw [if_pos h]
      by_cases hok : o.delOk s.dels
      · refine ⟨[Event.del rem true], ?_⟩
        simp [delCall, hok]
      · by_cases hmax : (a : Int) ≥ m
        · refine ⟨[Event.del rem false], ?_⟩
          simp [delCall, hok, hmax]
        · obtain ⟨Δ, hΔ, hb, hd, hp⟩ :=
            ih (a + 1)
              (sleepCall { dels := s.dels + 1, trace := s.trace ++ [Event.del rem false] }
                (rd * (2 : Int) ^ a))
          have hok2 : o.delOk s.dels = false := eq_false_of_ne_true hok
          refine ⟨Event.del rem false :: Event.sleep (rd * (2 : Int) ^ a) :: Δ, ?_, ?_, ?_, ?_⟩
          · simp only [delCall, hok2, Bool.false_eq_true, if_false, if_neg hmax]
            rw [hΔ]
            simp [sleepCall]
          · simpa using hb
          · intro us hus
            simp at hus
            rcases hus with h1 | h1
            · exact h1
            · exact hd us h1
          · simpa using hp
    · rw [if_neg h]
      exact ⟨[], by simp⟩

theorem deleteLoop_outcome (o : Oracle) (urls : List String) (m rd : Int)
    (hurls : urls ≠ []) :
    ∀ (fuel : Nat) (a : Nat) (s : BlobState),
      (deleteLoop o fuel s urls m rd a [] urls).1 =
        { success := true, deletedUrls := urls } ∨
      (deleteLoop o fuel s urls m rd a [] urls).1 =
        { success := false, deletedUrls := [] } := by
  have hlen : ¬ ((0 : Nat) = urls.length) := by
    intro h
    exact hurls (List.length_eq_zero.mp h.symm)
  intro fuel
  induction fuel with
  | zero =>
    intro a s
    right
    simp [deleteLoop, hlen]
  | succ f ih =>
    intro a s
    rw [deleteLoop]
    by_cases h : (a : Int) ≤ m ∧ urls ≠ []
    · rw [if_pos h]
      by_cases hok : o.delOk s.dels
      · left
        simp [delCall, hok]
      · by_cases hmax : (a : Int) ≥ m
        · right
          simp [delCall, hok, hmax]
        · simp only [delCall, hok, if_neg hok, hmax, if_neg hmax]
          exact ih (a + 1) _
    · rw [if_neg h]
      right
      simp [hlen]

theorem deleteAntragFiles_shape (o : Oracle) (s : BlobState) (urls : List String)
    (m rd : Int) : ∃ Δ,
      (deleteAntragFiles o s urls m rd).2.trace = s.trace ++ Δ ∧
      delBatchPayloads Δ = [urls] ∧
      (∀ us ∈ delPayloads Δ, us = urls) ∧
      putPaths Δ = [] := by
  by_cases h : urls = []
  · refine ⟨[Event.delBatch urls], ?_⟩
    simp [deleteAntragFiles, h]
  · obtain ⟨Δ, hΔ, hb, hd, hp⟩ :=
      deleteLoop_shape o urls m rd [] urls (m + 1).toNat 0
        { s with trace := s.trace ++ [Event.delBatch urls] }
    refine ⟨Event.delBatch urls :: Δ, ?_, ?_, ?_, ?_⟩
    · rw [deleteAntragFiles]
      simp only [h, if_neg h]
      simpa using hΔ
    · simp [hb]
    · simpa using hd
    · simpa using hp

theorem deleteAntragFiles_outcome (o : Oracle) (s : BlobState) (urls : List String)
    (m rd : Int) :
    (deleteAntragFiles o s urls m rd).1 = { success := true, deletedUrls := urls } ∨
    ((deleteAntragFiles o s urls m rd).1 = { success := false, deletedUrls := [] } ∧
      urls ≠ []) := by
  by_cases h : urls = []
  · left
    simp [deleteAntragFiles, h]
  · rcases deleteLoop_outcome o urls m rd h (m + 1).toNat 0
      { s with trace := s.trace ++ [Event.delBatch urls] } with h1 | h1
    · left
      rw [deleteAntragFiles]
      simpa [h] using h1
    · right
      refine ⟨?_, h⟩
      rw [deleteAntragFiles]
      simpa [h] using h1


/-- C6: `deleteAntragFiles` never raises on storage-layer failure — it is a
total function into a structural `DeletionOutcome` (every store-level `del`
failure is caught inside `deleteLoop`) — and its `success` flag is `true`
exactly when every requested URL is among the URLs it reports deleted. -/
theorem C6_deletion_reporting (o : Oracle) (s : BlobState) (urls : List String)
    (maxRetries retryDelay : Int) :
    (deleteAntragFiles o s urls maxRetries retryDelay).1.success = true ↔
      ∀ u ∈ urls, u ∈ (deleteAntragFiles o s urls maxRetries retryDelay).1.deletedUrls := by
  rcases deleteAntragFiles_outcome o s urls maxRetries retryDelay with h | ⟨h, hne⟩
  · rw [h]
    simp
  · rw [h]
    simp only [List.mem_nil_iff]
    constructor
    · intro hfalse
      exact absurd hfalse (by simp)
    · intro hall
      obtain ⟨u, hu⟩ := List.exists_mem_of_ne_nil urls hne
      exact absurd (hall u hu) (by simp)

/-- C7: every store-level `del` call issued by `deleteAntragFiles` covers the
entire requested URL set in one call (never per-URL); on exhausting retries
the outcome is `success = false` with the empty deleted subset, and on a
successful attempt it is `success = true` with the full requested list. -/
theorem C7_delete_whole_set (o : Oracle) (s : BlobState) (urls : List String)
    (maxRetries retryDelay : Int) :
    ∃ Δ, (deleteAntragFiles o s urls maxRetries retryDelay).2.trace = s.trace ++ Δ ∧
      (∀ us ∈ delPayloads Δ, us = urls) ∧
      ((deleteAntragFiles o s urls maxRetries retryDelay).1.success = false →
        (deleteAntragFiles o s urls maxRetries retryDelay).1.deletedUrls = []) ∧
      ((deleteAntragFiles o s urls maxRetries retryDelay).1.success = true →
        (deleteAntragFiles o s urls maxRetries retryDelay).1.deletedUrls = urls) := by
  obtain ⟨Δ, hΔ, hb, hd, hp⟩ := deleteAntragFiles_shape o s urls maxRetries retryDelay
  refine ⟨Δ, hΔ, hd, ?_, ?_⟩
  · intro hfail
    rcases deleteAntragFiles_outcome o s urls maxRetries retryDelay with h | ⟨h, _⟩
    · rw [h] at hfail
      simp at hfail
    · rw [h]
  · intro hsucc
    rcases deleteAntragFiles_outcome o s urls maxRetries retryDelay with h | ⟨h, _⟩
    · rw [h]
    · rw [h] at hsucc
      simp at hsucc

/-- C3: when validation fails, `uploadAntragFiles` raises exactly that
`ValidationError` and returns with the run state untouched: no store `put`
was issued and no compensating deletion was invoked (the trace gains no
event at all). -/
theorem C3_validation_precedes_io (cfg : FileConfig) (o : Oracle) (s : BlobState)
    (timestamp : Nat) (files : List AFile) (maxRetries retryDelay : Int)
    (errs : List (String × String))
    (hv : validateAntragFiles cfg files = Except.error errs) :
    uploadAntragFiles cfg o s timestamp files maxRetries retryDelay =
      (Except.error (Err.validation errs), s) := by
  rw [uploadAntragFiles, hv]

theorem C3_validation_precedes_io_witness :
    uploadAntragFiles ⟨1, 1000000, 10000000, ["application/pdf"]⟩
        ⟨fun _ _ => true, fun _ => true⟩ ⟨0, []⟩ 0
        [⟨"a.pdf", "application/pdf", 100⟩, ⟨"b.pdf", "application/pdf", 100⟩] 3 1000 =
      (Except.error (Err.validation [("files", "Zu viele Dateien")]), ⟨0, []⟩) :=
  C3_validation_precedes_io ⟨1, 1000000, 10000000, ["application/pdf"]⟩
    ⟨fun _ _ => true, fun _ => true⟩ ⟨0, []⟩ 0
    [⟨"a.pdf", "application/pdf", 100⟩, ⟨"b.pdf", "application/pdf", 100⟩] 3 1000
    [("files", "Zu viele Dateien")] (by rfl)

theorem uploadFilesLoop_neg (o : Oracle) (timestamp : Nat)
    (maxRetries retryDelay : Int) (hm : maxRetries < 0) :
    ∀ (files : List AFile) (i : Nat) (acc : List String) (s : BlobState),
      uploadFilesLoop o s timestamp maxRetries retryDelay files i acc =
        (Except.ok acc, acc, s) := by
  have hfuel : (maxRetries + 1).toNat = 0 := by omega
  intro files
  induction files with
  | nil => intro i acc s; rfl
  | cons file rest ih =>
    intro i acc s
    rw [uploadFilesLoop, hfuel]
    exact ih (i + 1) acc s

/-- C10: with a negative `maxRetries`, the body of the per-file retry loop
never runs (`attempt <= maxRetries` is false at entry with `attempt = 0`),
so for a non-empty batch that passes validation `uploadAntragFiles` issues
no store `put` at all and returns the empty list without raising — a result
whose length differs from the batch's. -/
theorem C10_negative_max_retries (cfg : FileConfig) (o : Oracle) (s : BlobState)
    (timestamp : Nat) (files : List AFile) (maxRetries retryDelay : Int)
    (hm : maxRetries < 0)
    (hv : validateAntragFiles cfg files = Except.ok ())
    (hne : files ≠ []) :
    uploadAntragFiles cfg o s timestamp files maxRetries retryDelay =
      (Except.ok [], s) := by
  rw [uploadAntragFiles, hv]
  simp only [if_neg hne]
  rw [uploadFilesLoop_neg o timestamp maxRetries retryDelay hm files 0 [] s]

theorem C10_negative_max_retries_witness :
    uploadAntragFiles ⟨10, 1000000, 10000000, ["application/pdf"]⟩
        ⟨fun _ _ => true, fun _ => true⟩ ⟨0, []⟩ 0
        [⟨"a.pdf", "application/pdf", 100⟩, ⟨"b.pdf", "application/pdf", 100⟩]
        (-1) 1000 =
      (Except.ok [], ⟨0, []⟩) :=
  C10_negative_max_retries ⟨10, 1000000, 10000000, ["application/pdf"]⟩
    ⟨fun _ _ => true, fun _ => true⟩ ⟨0, []⟩ 0
    [⟨"a.pdf", "application/pdf", 100⟩, ⟨"b.pdf", "application/pdf", 100⟩]
    (-1) 1000 (by decide) (by rfl) (by decide)


theorem validateFiles_isValid_iff (files : List AFile) (c p : Nat)
    (allowed : List String) :
    (validateFiles files c p allowed).isValid = true ↔
      (files.length ≤ c ∧ (∀ f ∈ files, f.size ≤ p) ∧
        (∀ f ∈ files, f.ftype ∈ allowed)) := by
  unfold validateFiles
  by_cases h1 : files.length ≤ c <;>
    by_cases h2 : files.all (fun file => decide (file.size ≤ p)) <;>
      by_cases h3 : files.all (fun file => allowed.contains file.ftype) <;>
        simp_all [List.all_eq_true]

theorem validateFiles_errors_none_iff (files : List AFile) (c p : Nat)
    (allowed : List String) :
    (validateFiles files c p allowed).errors = none ↔
      (validateFiles files c p allowed).isValid = true := by
  unfold validateFiles
  by_cases h1 : files.length ≤ c <;>
    by_cases h2 : files.all (fun file => decide (file.size ≤ p)) <;>
      by_cases h3 : files.all (fun file => allowed.contains file.ftype) <;>
        simp_all

/-- C4: `validateAntragFiles` accepts the empty batch as a no-op; it accepts
a non-empty batch exactly when the count, per-file size, type and aggregate
total-size constraints all hold; every failure carries a field-to-message
mapping keyed by `files`; and the aggregate check runs after, and
independently of, the shared routine `validateFiles` — when that routine
passes but the aggregate limit is exceeded, the aggregate error is raised. -/
theorem C4_validate_characterization (cfg : FileConfig) (files : List AFile) :
    (validateAntragFiles cfg [] = Except.ok ()) ∧
    (validateAntragFiles cfg files = Except.ok () ↔
      (files = [] ∨
        (files.length ≤ cfg.countLimit ∧
          (∀ f ∈ files, f.size ≤ cfg.perFileLimit) ∧
          (∀ f ∈ files, f.ftype ∈ cfg.allowedTypes) ∧
          files.foldl (fun sum file => sum + file.size) 0 ≤ cfg.totalLimit))) ∧
    (∀ errs, validateAntragFiles cfg files = Except.error errs →
      ∃ msg, errs = [("files", msg)]) ∧
    (files ≠ [] →
      (validateFiles files cfg.countLimit cfg.perFileLimit cfg.allowedTypes).isValid = true →
      files.foldl (fun sum file => sum + file.size) 0 > cfg.totalLimit →
      validateAntragFiles cfg files =
        Except.error
          [("files", fileSizeExceedsMessage "files" (cfg.totalLimit / (1024 * 1024)))]) := by
  refine ⟨by simp [validateAntragFiles], ?_, ?_, ?_⟩
  · by_cases hne : files = []
    · simp [validateAntragFiles, hne]
    · rw [validateAntragFiles]
      rw [if_neg hne]
      by_cases hval :
          (validateFiles files cfg.countLimit cfg.perFileLimit cfg.allowedTypes).isValid = true
      · have herr :
            (validateFiles files cfg.countLimit cfg.perFileLimit cfg.allowedTypes).errors = none :=
          (validateFiles_errors_none_iff files cfg.countLimit cfg.perFileLimit
            cfg.allowedTypes).mpr hval
        rw [if_neg (by simp [herr])]
        rcases validateFiles_isValid_iff files cfg.countLimit cfg.perFileLimit
          cfg.allowedTypes |>.mp hval with ⟨hc, hs, ht⟩
        by_cases htot :
            files.foldl (fun sum file => sum + file.size) 0 > cfg.totalLimit
        · rw [if_pos htot]
          simp only [hne, false_or]
          constructor
          · intro h
            exact absurd h (by simp)
          · intro ⟨_, _, _, h⟩
            omega
        · rw [if_neg htot]
          simp only [hne, false_or]
          constructor
          · intro _
            exact ⟨hc, hs, ht, by omega⟩
          · intro _
            trivial
      · have herr :
            (validateFiles files cfg.countLimit cfg.perFileLimit cfg.allowedTypes).errors ≠ none := by
          intro h
          exact hval ((validateFiles_errors_none_iff files cfg.countLimit cfg.perFileLimit
            cfg.allowedTypes).mp h)
        rw [if_pos ⟨by simpa using hval, herr⟩]
        simp only [hne, false_or]
        constructor
        · intro h
          exact absurd h (by simp)
        · intro ⟨hc, hs, ht, _⟩
          exact absurd ((validateFiles_isValid_iff files cfg.countLimit cfg.perFileLimit
            cfg.allowedTypes).mpr ⟨hc, hs, ht⟩) hval
  · intro errs herrs
    rw [validateAntragFiles] at herrs
    by_cases hne : files = []
    · rw [if_pos hne] at herrs
      exact absurd herrs (by simp)
    · rw [if_neg hne] at herrs
      by_cases hcond :
          (validateFiles files cfg.countLimit cfg.perFileLimit cfg.allowedTypes).isValid = false ∧
          (validateFiles files cfg.countLimit cfg.perFileLimit cfg.allowedTypes).errors ≠ none
      · rw [if_pos hcond] at herrs
        exact ⟨_, by injection herrs.symm⟩
      · rw [if_neg hcond] at herrs
        by_cases htot :
            files.foldl (fun sum file => sum + file.size) 0 > cfg.totalLimit
        · rw [if_pos htot] at herrs
          exact ⟨_, by injection herrs.symm⟩
        · rw [if_neg htot] at herrs
          exact absurd herrs (by simp)
  · intro hne hval htot
    rw [validateAntragFiles, if_neg hne]
    have herr :
        (validateFiles files cfg.countLimit cfg.perFileLimit cfg.allowedTypes).errors = none :=
      (validateFiles_errors_none_iff files cfg.countLimit cfg.perFileLimit
        cfg.allowedTypes).mpr hval
    rw [if_neg (by simp [herr])]
    rw [if_pos htot]


theorem digitChar_of_mem_natReprCharsAux (fuel : Nat) :
    ∀ (n : Nat) (c : Char), c ∈ natReprCharsAux fuel n → ∃ d, d < 10 ∧ c = Nat.digitChar d := by
  induction fuel with
  | zero =>
    intro n c hc
    simp [natReprCharsAux] at hc
  | succ f ih =>
    intro n c hc
    rw [natReprCharsAux] at hc
    by_cases h : n < 10
    · rw [if_pos h] at hc
      simp at hc
      exact ⟨n, h, hc⟩
    · rw [if_neg h] at hc
      rcases List.mem_append.mp hc with h1 | h1
      · exact ih (n / 10) c h1
      · simp at h1
        exact ⟨n % 10, Nat.mod_lt n (by omega), h1⟩

theorem digitChar_ne_dash : ∀ d : Nat, d < 10 → Nat.digitChar d ≠ '-' := by
  decide

theorem digitChar_toNat_eq : ∀ d : Nat, d < 10 → (Nat.digitChar d).toNat = 48 + d := by
  decide

theorem natReprChars_ne_dash (n : Nat) : ∀ c ∈ natReprChars n, c ≠ '-' := by
  intro c hc
  obtain ⟨d, hd, rfl⟩ := digitChar_of_mem_natReprCharsAux (n + 1) n c hc
  exact digitChar_ne_dash d hd

theorem parseDigits_append_singleton (xs : List Char) (c : Char) :
    parseDigits (xs ++ [c]) = 10 * parseDigits xs + (c.toNat - 48) := by
  simp [parseDigits, List.foldl_append]

theorem parseDigits_natReprCharsAux (fuel : Nat) :
    ∀ n : Nat, n < fuel → parseDigits (natReprCharsAux fuel n) = n := by
  induction fuel with
  | zero => omega
  | succ f ih =>
    intro n hn
    rw [natReprCharsAux]
    by_cases h : n < 10
    · rw [if_pos h]
      simp [parseDigits, digitChar_toNat_eq n h]
    · rw [if_neg h]
      rw [parseDigits_append_singleton]
      have hdiv : n / 10 < f := by
        have := Nat.div_lt_self (show 0 < n by omega) (show 1 < 10 by omega)
        omega
      rw [ih (n / 10) hdiv]
      rw [digitChar_toNat_eq (n % 10) (Nat.mod_lt n (by omega))]
      omega

theorem natReprChars_injective (a b : Nat) (h : natReprChars a = natReprChars b) :
    a = b := by
  have ha := parseDigits_natReprCharsAux (a + 1) a (by omega)
  have hb := parseDigits_natReprCharsAux (b + 1) b (by omega)
  rw [natReprChars] at h
  rw [natReprChars] at h
  rw [h] at ha
  rw [hb] at ha
  omega

theorem split_at_dash :
    ∀ (a b x y : List Char), (∀ c ∈ a, c ≠ '-') → (∀ c ∈ b, c ≠ '-') →
      a ++ '-' :: x = b ++ '-' :: y → a = b ∧ x = y := by
  intro a
  induction a with
  | nil =>
    intro b x y _ hb h
    cases b with
    | nil => simpa using h
    | cons c bs =>
      simp at h
      exact absurd h.1.symm (hb c (by simp))
  | cons c as ih =>
    intro b x y ha hb h
    cases b with
    | nil =>
      simp at h
      exact absurd h.1 (ha c (by simp))
    | cons d bs =>
      simp only [List.cons_append, List.cons.injEq] at h
      obtain ⟨rfl, h2⟩ := h
      obtain ⟨rfl, rfl⟩ :=
        ih bs x y (fun e he => ha e (by simp [he])) (fun e he => hb e (by simp [he])) h2
      exact ⟨rfl, rfl⟩

theorem sanitizeAux_no_whitespace :
    ∀ (flag : Bool) (cs : List Char) (c : Char), c ∈ sanitizeAux flag cs →
      isJsWhitespace c = false := by
  intro flag cs
  induction cs generalizing flag with
  | nil =>
    intro c hc
    simp [sanitizeAux] at hc
  | cons d rest ih =>
    intro c hc
    rw [sanitizeAux] at hc
    by_cases h : isJsWhitespace d
    · rw [if_pos h] at hc
      cases flag with
      | true => exact ih true c (by simpa using hc)
      | false =>
        simp only [Bool.false_eq_true, if_false] at hc
        rcases List.mem_cons.mp hc with rfl | h1
        · decide
        · exact ih true c h1
    · rw [if_neg h] at hc
      rcases List.mem_cons.mp hc with rfl | h1
      · simpa using h
      · exact ih false c h1

theorem blobPathname_injective (timestamp i j : Nat) (s1 s2 : String)
    (hij : i ≠ j) : blobPathname timestamp i s1 ≠ blobPathname timestamp j s2 := by
  intro h
  rw [blobPathname, blobPathname] at h
  have hdata :
      "antraege/".data ++ natReprChars timestamp ++ ['-'] ++ natReprChars i ++ ['-'] ++ s1.data =
      "antraege/".data ++ natReprChars timestamp ++ ['-'] ++ natReprChars j ++ ['-'] ++ s2.data := by
    injection h
  simp only [List.append_assoc, List.singleton_append] at hdata
  have h1 := List.append_cancel_left hdata
  have h2 := List.append_cancel_left h1
  have h3 : natReprChars i ++ '-' :: s1.data = natReprChars j ++ '-' :: s2.data :=
    List.cons.inj h2 |>.2
  have := split_at_dash (natReprChars i) (natReprChars j) s1.data s2.data
    (natReprChars_ne_dash i) (natReprChars_ne_dash j) h3
  exact hij (natReprChars_injective i j this.1)

/-- C9: the storage path of each file is the template
`antraege/<timestamp>-<index>-<sanitizedName>` built from the shared batch
timestamp, the file's batch index and its whitespace-sanitized name; two
distinct indices of the same batch always yield distinct paths (no reliance
on store-side suffixing), and the sanitized name contains no whitespace. -/
theorem C9_path_uniqueness (timestamp i j : Nat) (name1 name2 : String) :
    (i ≠ j →
      blobPathname timestamp i (sanitizeFileName name1) ≠
        blobPathname timestamp j (sanitizeFileName name2)) ∧
    (∀ c ∈ (sanitizeFileName name1).data, isJsWhitespace c = false) := by
  constructor
  · intro hij
    exact blobPathname_injective timestamp i j (sanitizeFileName name1)
      (sanitizeFileName name2) hij
  · intro c hc
    exact sanitizeAux_no_whitespace false name1.data c hc


theorem uploadFileLoop_error_shape (o : Oracle) (u : List String) (i : Nat)
    (file : AFile) (pathname : String) (m rd : Int) :
    ∀ (fuel : Nat) (a : Nat) (s : BlobState) (e : Err) (s1 : BlobState),
      uploadFileLoop o fuel s u i file pathname m rd a = (Except.error e, s1) →
      e = Err.appFileUpload (uploadFailMessage file.name) := by
  intro fuel
  induction fuel with
  | zero =>
    intro a s e s1 h
    rw [uploadFileLoop] at h
    exact absurd h (by simp)
  | succ f ih =>
    intro a s e s1 h
    rw [uploadFileLoop] at h
    by_cases hc : (a : Int) ≤ m
    · rw [if_pos hc] at h
      by_cases hok : o.putOk i a
      · rw [putCall] at h
        simp only [hok, if_pos] at h
        exact absurd h (by simp)
      · have hok2 : o.putOk i a = false := eq_false_of_ne_true hok
        rw [putCall] at h
        simp only [hok2, Bool.false_eq_true, if_false] at h
        by_cases hmax : (a : Int) ≥ m
        · rw [if_pos hmax] at h
          simp only [Prod.mk.injEq] at h
          exact (Except.error.inj h.1).symm
        · rw [if_neg hmax] at h
          exact ih (a + 1) _ e s1 h
    · rw [if_neg hc] at h
      exact absurd h (by simp)

theorem uploadFileLoop_ok_shape (o : Oracle) (u : List String) (i : Nat)
    (file : AFile) (pathname : String) (m rd : Int) :
    ∀ (fuel : Nat) (a : Nat) (s : BlobState) (r : Option String) (s1 : BlobState),
      uploadFileLoop o fuel s u i file pathname m rd a = (Except.ok r, s1) →
      r = none ∨ r = some (putUrl pathname) := by
  intro fuel
  induction fuel with
  | zero =>
    intro a s r s1 h
    rw [uploadFileLoop] at h
    simp only [Prod.mk.injEq] at h
    exact Or.inl (Except.ok.inj h.1).symm
  | succ f ih =>
    intro a s r s1 h
    rw [uploadFileLoop] at h
    by_cases hc : (a : Int) ≤ m
    · rw [if_pos hc] at h
      by_cases hok : o.putOk i a
      · rw [putCall] at h
        simp only [hok, if_pos] at h
        simp only [Prod.mk.injEq] at h
        exact Or.inr (Except.ok.inj h.1).symm
      · have hok2 : o.putOk i a = false := eq_false_of_ne_true hok
        rw [putCall] at h
        simp only [hok2, Bool.false_eq_true, if_false] at h
        by_cases hmax : (a : Int) ≥ m
        · rw [if_pos hmax] at h
          exact absurd h (by simp)
        · rw [if_neg hmax] at h
          exact ih (a + 1) _ r s1 h
    · rw [if_neg hc] at h
      simp only [Prod.mk.injEq] at h
      exact Or.inl (Except.ok.inj h.1).symm

theorem uploadFileLoop_not_none (o : Oracle) (u : List String) (i : Nat)
    (file : AFile) (pathname : String) (m rd : Int) :
    ∀ (fuel : Nat) (a : Nat) (s : BlobState) (s1 : BlobState),
      (a : Int) + fuel = m + 1 → (a : Int) ≤ m →
      uploadFileLoop o fuel s u i file pathname m rd a ≠ (Except.ok none, s1) := by
  intro fuel
  induction fuel with
  | zero =>
    intro a s s1 hinv hle
    omega
  | succ f ih =>
    intro a s s1 hinv hle h
    rw [uploadFileLoop] at h
    rw [if_pos hle] at h
    by_cases hok : o.putOk i a
    · rw [putCall] at h
      simp only [hok, if_pos] at h
      exact absurd h (by simp)
    · have hok2 : o.putOk i a = false := eq_false_of_ne_true hok
      rw [putCall] at h
      simp only [hok2, Bool.false_eq_true, if_false] at h
      by_cases hmax : (a : Int) ≥ m
      · rw [if_pos hmax] at h
        exact absurd h (by simp)
      · rw [if_neg hmax] at h
        exact ih (a + 1) _ s1 (by push_cast; omega) (by push_cast at hmax ⊢; omega) h

theorem uploadFileLoop_first_success (o : Oracle) (u : List String) (i : Nat)
    (file : AFile) (pathname : String) (m rd : Int) :
    ∀ (d a : Nat) (fuel : Nat) (s : BlobState),
      ((a + d : Nat) : Int) ≤ m → d < fuel →
      o.putOk i (a + d) = true →
      (∀ b : Nat, a ≤ b → b < a + d → o.putOk i b = false) →
      uploadFileLoop o fuel s u i file pathname m rd a =
        (Except.ok (some (putUrl pathname)),
         { s with trace := s.trace ++ succRun pathname rd a d }) := by
  intro d
  induction d with
  | zero =>
    intro a fuel s hle hfuel hok hbefore
    obtain ⟨f, rfl⟩ : ∃ f, fuel = f + 1 := ⟨fuel - 1, by omega⟩
    rw [uploadFileLoop]
    rw [if_pos (by simpa using hle)]
    rw [putCall]
    simp only [Nat.add_zero] at hok
    simp only [hok, if_pos]
    rfl
  | succ d ih =>
    intro a fuel s hle hfuel hok hbefore
    obtain ⟨f, rfl⟩ : ∃ f, fuel = f + 1 := ⟨fuel - 1, by omega⟩
    rw [uploadFileLoop]
    rw [if_pos (by push_cast at hle ⊢; omega)]
    have hfalse : o.putOk i a = false := hbefore a (le_refl a) (by omega)
    rw [putCall]
    simp only [hfalse, Bool.false_eq_true, if_false]
    rw [if_neg (by push_cast at hle ⊢; omega)]
    rw [ih (a + 1) f (sleepCall { s with trace := s.trace ++ [Event.put pathname false] }
      (rd * (2 : Int) ^ a)) (by push_cast at hle ⊢; omega) (by omega)
      (by rw [show a + 1 + d = a + (d + 1) by omega]; exact hok)
      (fun b hb1 hb2 => hbefore b (by omega) (by omega))]
    simp [sleepCall, succRun]

theorem uploadFileLoop_all_fail (o : Oracle) (u : List String) (i : Nat)
    (file : AFile) (pathname : String) (m rd : Int) :
    ∀ (d a : Nat) (fuel : Nat) (s : BlobState),
      ((a : Int) + d = m) → d < fuel →
      (∀ b : Nat, a ≤ b → o.putOk i b = false) →
      uploadFileLoop o fuel s u i file pathname m rd a =
        (Except.error (Err.appFileUpload (uploadFailMessage file.name)),
         if u.length > 0 then
           (deleteAntragFiles o
             { s with trace := s.trace ++ failRun pathname rd a d } u 3 1000).2
         else { s with trace := s.trace ++ failRun pathname rd a d }) := by
  intro d
  induction d with
  | zero =>
    intro a fuel s hinv hfuel hfail
    obtain ⟨f, rfl⟩ : ∃ f, fuel = f + 1 := ⟨fuel - 1, by omega⟩
    rw [uploadFileLoop]
    rw [if_pos (by omega)]
    rw [putCall]
    simp only [hfail a (le_refl a), Bool.false_eq_true, if_false]
    rw [if_pos (by omega)]
    rfl
  | succ d ih =>
    intro a fuel s hinv hfuel hfail
    obtain ⟨f, rfl⟩ : ∃ f, fuel = f + 1 := ⟨fuel - 1, by omega⟩
    rw [uploadFileLoop]
    rw [if_pos (by push_cast at hinv ⊢; omega)]
    rw [putCall]
    simp only [hfail a (le_refl a), Bool.false_eq_true, if_false]
    rw [if_neg (by push_cast at hinv ⊢; omega)]
    rw [ih (a + 1) f (sleepCall { s with trace := s.trace ++ [Event.put pathname false] }
      (rd * (2 : Int) ^ a)) (by push_cast at hinv ⊢; omega) (by omega)
      (fun b hb => hfail b (by omega))]
    simp [sleepCall, failRun]


theorem expectedUrls_length (timestamp : Nat) :
    ∀ (files : List AFile) (i : Nat), (expectedUrls timestamp i files).length = files.length := by
  intro files
  induction files with
  | nil => intro i; rfl
  | cons file rest ih =>
    intro i
    simp [expectedUrls, ih (i + 1)]

theorem uploadFilesLoop_ok_shape (o : Oracle) (timestamp : Nat) (m rd : Int)
    (hm : 0 ≤ m) :
    ∀ (files : List AFile) (i : Nat) (acc : List String) (s : BlobState)
      (urls mid : List String) (s1 : BlobState),
      uploadFilesLoop o s timestamp m rd files i acc = (Except.ok urls, mid, s1) →
      urls = acc ++ expectedUrls timestamp i files := by
  intro files
  induction files with
  | nil =>
    intro i acc s urls mid s1 h
    rw [uploadFilesLoop] at h
    simp only [Prod.mk.injEq] at h
    rw [← Except.ok.inj h.1]
    simp [expectedUrls]
  | cons file rest ih =>
    intro i acc s urls mid s1 h
    rw [uploadFilesLoop] at h
    rcases hloop : uploadFileLoop o (m + 1).toNat s acc i file
        (blobPathname timestamp i (sanitizeFileName file.name)) m rd 0 with ⟨r, s2⟩
    rw [hloop] at h
    match r with
    | Except.ok (some url) =>
      have hurl : url = putUrl (blobPathname timestamp i (sanitizeFileName file.name)) := by
        rcases uploadFileLoop_ok_shape o acc i file
            (blobPathname timestamp i (sanitizeFileName file.name)) m rd
            (m + 1).toNat 0 s (some url) s2 hloop with h1 | h1
        · exact absurd h1 (by simp)
        · exact Option.some.inj h1
      have := ih (i + 1) (acc ++ [url]) s2 urls mid s1 h
      rw [this, hurl]
      simp [expectedUrls]
    | Except.ok none =>
      exact absurd hloop
        (uploadFileLoop_not_none o acc i file
          (blobPathname timestamp i (sanitizeFileName file.name)) m rd
          (m + 1).toNat 0 s s2 (by omega) (by omega))
    | Except.error e =>
      exact absurd h (by simp)

/-- C1: with a non-negative retry budget, whenever `uploadAntragFiles`
returns a URL list (rather than raising), that list has exactly one URL per
input file and its i-th element is the URL stored for the i-th file of the
batch (so the output order matches the input order); a partial-length list
never escapes. -/
theorem C1_full_list_in_order (cfg : FileConfig) (o : Oracle) (s : BlobState)
    (timestamp : Nat) (files : List AFile) (maxRetries retryDelay : Int)
    (hm : 0 ≤ maxRetries) (urls : List String) (s1 : BlobState)
    (h : uploadAntragFiles cfg o s timestamp files maxRetries retryDelay =
      (Except.ok urls, s1)) :
    urls.length = files.length ∧ urls = expectedUrls timestamp 0 files := by
  rw [uploadAntragFiles] at h
  rcases hv : validateAntragFiles cfg files with errs | u
  · rw [hv] at h
    exact absurd h (by simp)
  · rw [hv] at h
    by_cases hne : files = []
    · rw [if_pos hne] at h
      simp only [Prod.mk.injEq] at h
      subst hne
      rw [← Except.ok.inj h.1]
      exact ⟨rfl, rfl⟩
    · rw [if_neg hne] at h
      rcases hloop : uploadFilesLoop o s timestamp maxRetries retryDelay files 0 []
        with ⟨r, mid, s2⟩
      rw [hloop] at h
      match r with
      | Except.ok urls2 =>
        simp only [Prod.mk.injEq] at h
        have := uploadFilesLoop_ok_shape o timestamp maxRetries retryDelay hm
          files 0 [] s urls2 mid s2 hloop
        rw [← Except.ok.inj h.1, this]
        simp [expectedUrls_length]
      | Except.error e =>
        rcases e with fields | msg | _
        · exact absurd h (by simp [catchHandler])
        · exact absurd h (by simp [catchHandler])
        · exact absurd h (by simp [catchHandler])

theorem C1_full_list_in_order_witness :
    [ "https://blob.vercel-storage.com/antraege/7-0-a-b.pdf",
      "https://blob.vercel-storage.com/antraege/7-1-c.pdf" ].length = 2 ∧
    ([ "https://blob.vercel-storage.com/antraege/7-0-a-b.pdf",
       "https://blob.vercel-storage.com/antraege/7-1-c.pdf" ] : List String) =
      expectedUrls 7 0
        [⟨"a b.pdf", "application/pdf", 100⟩, ⟨"c.pdf", "application/pdf", 200⟩] := by
  have h := C1_full_list_in_order ⟨10, 1000000, 10000000, ["application/pdf"]⟩
    ⟨fun _ _ => true, fun _ => true⟩ ⟨0, []⟩ 7
    [⟨"a b.pdf", "application/pdf", 100⟩, ⟨"c.pdf", "application/pdf", 200⟩]
    3 1000 (by decide)
    [ "https://blob.vercel-storage.com/antraege/7-0-a-b.pdf",
      "https://blob.vercel-storage.com/antraege/7-1-c.pdf" ]
    ⟨0, [Event.put "antraege/7-0-a-b.pdf" true, Event.put "antraege/7-1-c.pdf" true]⟩
    (by rfl)
  exact ⟨by decide, h.2⟩


theorem uploadFilesLoop_error_shape (o : Oracle) (timestamp : Nat) (m rd : Int) :
    ∀ (files : List AFile) (i : Nat) (acc : List String) (s : BlobState)
      (e : Err) (mid : List String) (s1 : BlobState),
      uploadFilesLoop o s timestamp m rd files i acc = (Except.error e, mid, s1) →
      ∃ msg, e = Err.appFileUpload msg := by
  intro files
  induction files with
  | nil =>
    intro i acc s e mid s1 h
    rw [uploadFilesLoop] at h
    exact absurd h (by simp)
  | cons file rest ih =>
    intro i acc s e mid s1 h
    rw [uploadFilesLoop] at h
    rcases hloop : uploadFileLoop o (m + 1).toNat s acc i file
        (blobPathname timestamp i (sanitizeFileName file.name)) m rd 0 with ⟨r, s2⟩
    rw [hloop] at h
    match r with
    | Except.ok (some url) => exact ih (i + 1) (acc ++ [url]) s2 e mid s1 h
    | Except.ok none => exact ih (i + 1) acc s2 e mid s1 h
    | Except.error e2 =>
      simp only [Prod.mk.injEq] at h
      have := uploadFileLoop_error_shape o acc i file
        (blobPathname timestamp i (sanitizeFileName file.name)) m rd
        (m + 1).toNat 0 s e2 s2 hloop
      exact ⟨uploadFailMessage file.name, by rw [← Except.error.inj h.1, this]⟩

/-- C8: every error `uploadAntragFiles` raises is either the original
`ValidationError` or the typed file-upload application error — never any
other value; the catch block (`catchHandler`) re-raises validation and
application errors unchanged, with no state change and in particular no
cleanup; and any other raised value is normalised into the generic
file-upload application error after the compensating deletion of the
accumulated URLs has been invoked (when there are any). -/
theorem C8_error_propagation (cfg : FileConfig) (o : Oracle) (s : BlobState)
    (timestamp : Nat) (files : List AFile) (maxRetries retryDelay : Int) :
    (∀ e s1, uploadAntragFiles cfg o s timestamp files maxRetries retryDelay =
        (Except.error e, s1) →
      (∃ fields, e = Err.validation fields) ∨ ∃ msg, e = Err.appFileUpload msg) ∧
    (∀ uploadedUrls fields,
      catchHandler o s (Err.validation fields) uploadedUrls =
        (Except.error (Err.validation fields), s)) ∧
    (∀ uploadedUrls msg,
      catchHandler o s (Err.appFileUpload msg) uploadedUrls =
        (Except.error (Err.appFileUpload msg), s)) ∧
    (∀ uploadedUrls, ∃ s1,
      catchHandler o s Err.other uploadedUrls =
        (Except.error (Err.appFileUpload genericUploadMessage), s1) ∧
      (uploadedUrls ≠ [] →
        delBatchPayloads s1.trace = delBatchPayloads s.trace ++ [uploadedUrls])) := by
  refine ⟨?_, fun _ _ => rfl, fun _ _ => rfl, ?_⟩
  · intro e s1 h
    rw [uploadAntragFiles] at h
    rcases hv : validateAntragFiles cfg files with errs | u
    · rw [hv] at h
      simp only [Prod.mk.injEq] at h
      exact Or.inl ⟨errs, (Except.error.inj h.1).symm⟩
    · rw [hv] at h
      by_cases hne : files = []
      · rw [if_pos hne] at h
        exact absurd h (by simp)
      · rw [if_neg hne] at h
        rcases hloop : uploadFilesLoop o s timestamp maxRetries retryDelay files 0 []
          with ⟨r, mid, s2⟩
        rw [hloop] at h
        match r with
        | Except.ok urls2 => exact absurd h (by simp)
        | Except.error e2 =>
          obtain ⟨msg, rfl⟩ := uploadFilesLoop_error_shape o timestamp maxRetries retryDelay
            files 0 [] s e2 mid s2 hloop
          simp only [catchHandler, Prod.mk.injEq] at h
          exact Or.inr ⟨msg, (Except.error.inj h.1).symm⟩
  · intro uploadedUrls
    by_cases hne : uploadedUrls = []
    · refine ⟨s, ?_, ?_⟩
      · simp [catchHandler, hne]
      · intro h
        exact absurd hne h
    · have hlen : uploadedUrls.length > 0 := List.length_pos.mpr hne
      obtain ⟨Δ, hΔ, hb, _, _⟩ := deleteAntragFiles_shape o s uploadedUrls 3 1000
      refine ⟨(deleteAntragFiles o s uploadedUrls 3 1000).2, ?_, ?_⟩
      · simp [catchHandler, hlen]
      · intro _
        rw [hΔ]
        simp [hb]


theorem putPaths_succRun (pathname : String) (rd : Int) :
    ∀ (d a : Nat), putPaths (succRun pathname rd a d) = List.replicate (d + 1) pathname := by
  intro d
  induction d with
  | zero => intro a; rfl
  | succ d ih =>
    intro a
    rw [succRun]
    simp [ih (a + 1), List.replicate_succ]

theorem putPaths_failRun (pathname : String) (rd : Int) :
    ∀ (d a : Nat), putPaths (failRun pathname rd a d) = List.replicate (d + 1) pathname := by
  intro d
  induction d with
  | zero => intro a; rfl
  | succ d ih =>
    intro a
    rw [failRun]
    simp [ih (a + 1), List.replicate_succ]

theorem delPayloads_succRun (pathname : String) (rd : Int) :
    ∀ (d a : Nat), delPayloads (succRun pathname rd a d) = [] := by
  intro d
  induction d with
  | zero => intro a; rfl
  | succ d ih =>
    intro a
    rw [succRun]
    simp [ih (a + 1)]

theorem delPayloads_failRun (pathname : String) (rd : Int) :
    ∀ (d a : Nat), delPayloads (failRun pathname rd a d) = [] := by
  intro d
  induction d with
  | zero => intro a; rfl
  | succ d ih =>
    intro a
    rw [failRun]
    simp [ih (a + 1)]

theorem delBatchPayloads_succRun (pathname : String) (rd : Int) :
    ∀ (d a : Nat), delBatchPayloads (succRun pathname rd a d) = [] := by
  intro d
  induction d with
  | zero => intro a; rfl
  | succ d ih =>
    intro a
    rw [succRun]
    simp [ih (a + 1)]

theorem delBatchPayloads_failRun (pathname : String) (rd : Int) :
    ∀ (d a : Nat), delBatchPayloads (failRun pathname rd a d) = [] := by
  intro d
  induction d with
  | zero => intro a; rfl
  | succ d ih =>
    intro a
    rw [failRun]
    simp [ih (a + 1)]

theorem delPayloads_succTraces (timestamp : Nat) (rd : Int) (A : Nat → Nat) :
    ∀ (files : List AFile) (i : Nat), delPayloads (succTraces timestamp rd A i files) = [] := by
  intro files
  induction files with
  | nil => intro i; rfl
  | cons file rest ih =>
    intro i
    rw [succTraces]
    simp [delPayloads_succRun, ih (i + 1)]

theorem delBatchPayloads_succTraces (timestamp : Nat) (rd : Int) (A : Nat → Nat) :
    ∀ (files : List AFile) (i : Nat),
      delBatchPayloads (succTraces timestamp rd A i files) = [] := by
  intro files
  induction files with
  | nil => intro i; rfl
  | cons file rest ih =>
    intro i
    rw [succTraces]
    simp [delBatchPayloads_succRun, ih (i + 1)]

theorem putPaths_succTraces_mem (timestamp : Nat) (rd : Int) (A : Nat → Nat) :
    ∀ (files : List AFile) (i : Nat) (p : String),
      p ∈ putPaths (succTraces timestamp rd A i files) →
      ∃ j, ∃ hj : j < files.length,
        p = blobPathname timestamp (i + j)
          (sanitizeFileName (files.get ⟨j, hj⟩).name) := by
  intro files
  induction files with
  | nil =>
    intro i p hp
    simp [succTraces] at hp
  | cons file rest ih =>
    intro i p hp
    rw [succTraces] at hp
    rw [putPaths_append] at hp
    rcases List.mem_append.mp hp with h1 | h1
    · rw [putPaths_succRun] at h1
      refine ⟨0, by simp, ?_⟩
      simpa using List.eq_of_mem_replicate h1
    · obtain ⟨j, hj, hpeq⟩ := ih (i + 1) p h1
      refine ⟨j + 1, by simpa using hj, ?_⟩
      rw [hpeq]
      congr 1
      omega

theorem uploadFilesLoop_front_success (o : Oracle) (timestamp : Nat) (m rd : Int)
    (A : Nat → Nat) (hm : 0 ≤ m) :
    ∀ (pre : List AFile) (rest : List AFile) (i0 : Nat) (acc : List String)
      (s : BlobState),
      (∀ j, j < pre.length →
        ((A (i0 + j) : Int) ≤ m ∧ o.putOk (i0 + j) (A (i0 + j)) = true ∧
          ∀ b, b < A (i0 + j) → o.putOk (i0 + j) b = false)) →
      uploadFilesLoop o s timestamp m rd (pre ++ rest) i0 acc =
        uploadFilesLoop o
          { s with trace := s.trace ++ succTraces timestamp rd A i0 pre }
          timestamp m rd rest (i0 + pre.length)
          (acc ++ expectedUrls timestamp i0 pre) := by
  intro pre
  induction pre with
  | nil =>
    intro rest i0 acc s hcond
    cases s
    simp [succTraces, expectedUrls]
  | cons file pre ih =>
    intro rest i0 acc s hcond
    obtain ⟨hA1, hA2, hA3⟩ := hcond 0 (by simp)
    simp only [Nat.add_zero] at hA1 hA2 hA3
    rw [List.cons_append, uploadFilesLoop]
    rw [uploadFileLoop_first_success o acc i0 file
      (blobPathname timestamp i0 (sanitizeFileName file.name)) m rd (A i0) 0
      (m + 1).toNat s (by simpa using hA1) (by omega)
      (by simpa using hA2) (fun b hb1 hb2 => hA3 b (by omega))]
    dsimp only
    rw [ih rest (i0 + 1) (acc ++ [putUrl (blobPathname timestamp i0 (sanitizeFileName file.name))])
      { s with trace := s.trace ++ succRun (blobPathname timestamp i0 (sanitizeFileName file.name)) rd 0 (A i0) }
      (fun j hj => by
        have := hcond (j + 1) (by simpa using hj)
        rwa [show i0 + (j + 1) = i0 + 1 + j by omega] at this)]
    rw [succTraces, expectedUrls]
    rw [(by simp : i0 + (file :: pre).length = i0 + (pre.length + 1)),
      (by omega : i0 + (pre.length + 1) = i0 + 1 + pre.length)]
    simp [List.append_assoc]


theorem uploadAntragFiles_fail_at (cfg : FileConfig) (o : Oracle) (s : BlobState)
    (timestamp : Nat) (files : List AFile) (m rd : Int) (k : Nat) (A : Nat → Nat)
    (hm : 0 ≤ m) (hk : k < files.length)
    (hv : validateAntragFiles cfg files = Except.ok ())
    (hfail : ∀ a : Nat, o.putOk k a = false)
    (hA : ∀ j, j < k → ((A j : Int) ≤ m ∧ o.putOk j (A j) = true ∧
      ∀ b, b < A j → o.putOk j b = false)) :
    ∃ s1 Δdel,
      uploadAntragFiles cfg o s timestamp files m rd =
        (Except.error (Err.appFileUpload (uploadFailMessage (files.get ⟨k, hk⟩).name)), s1) ∧
      s1.trace = s.trace ++ succTraces timestamp rd A 0 (files.take k) ++
        failRun (blobPathname timestamp k (sanitizeFileName (files.get ⟨k, hk⟩).name))
          rd 0 m.toNat ++ Δdel ∧
      putPaths Δdel = [] ∧
      (k = 0 → Δdel = []) ∧
      (0 < k →
        delBatchPayloads Δdel = [expectedUrls timestamp 0 (files.take k)] ∧
        ∀ us ∈ delPayloads Δdel, us = expectedUrls timestamp 0 (files.take k)) := by
  have hne : files ≠ [] := by
    intro h
    rw [h] at hk
    simp at hk
  have hlen : (files.take k).length = k := by
    rw [List.length_take]
    omega
  have hdrop : files.drop k = files.get ⟨k, hk⟩ :: files.drop (k + 1) := by
    rw [List.drop_eq_getElem_cons hk]
    simp
  have hElen : (expectedUrls timestamp 0 (files.take k)).length = k := by
    rw [expectedUrls_length, hlen]
  have hfailloop := uploadFileLoop_all_fail o (expectedUrls timestamp 0 (files.take k)) k
    (files.get ⟨k, hk⟩)
    (blobPathname timestamp k (sanitizeFileName (files.get ⟨k, hk⟩).name)) m rd
    m.toNat 0 (m + 1).toNat
    { s with trace := s.trace ++ succTraces timestamp rd A 0 (files.take k) }
    (by omega) (by omega) (fun b _ => hfail b)
  have hloopval : uploadFilesLoop o s timestamp m rd files 0 [] =
      (Except.error (Err.appFileUpload (uploadFailMessage (files.get ⟨k, hk⟩).name)),
       expectedUrls timestamp 0 (files.take k),
       if (expectedUrls timestamp 0 (files.take k)).length > 0 then
         (deleteAntragFiles o
           { s with trace := s.trace ++ succTraces timestamp rd A 0 (files.take k) ++
               failRun (blobPathname timestamp k
                 (sanitizeFileName (files.get ⟨k, hk⟩).name)) rd 0 m.toNat }
           (expectedUrls timestamp 0 (files.take k)) 3 1000).2
       else
         { s with trace := s.trace ++ succTraces timestamp rd A 0 (files.take k) ++
             failRun (blobPathname timestamp k
               (sanitizeFileName (files.get ⟨k, hk⟩).name)) rd 0 m.toNat }) := by
    have hsplit1 : uploadFilesLoop o s timestamp m rd files 0 [] =
        uploadFilesLoop o s timestamp m rd (files.take k ++ files.drop k) 0 [] := by
      rw [List.take_append_drop]
    rw [hsplit1]
    rw [uploadFilesLoop_front_success o timestamp m rd A hm (files.take k) (files.drop k) 0 [] s
      (fun j hj => by
        have := hA j (by omega)
        simpa using this)]
    rw [hlen, hdrop, List.nil_append, uploadFilesLoop]
    simp only [Nat.zero_add]
    rw [hfailloop]
  have hresult : uploadAntragFiles cfg o s timestamp files m rd =
      (Except.error (Err.appFileUpload (uploadFailMessage (files.get ⟨k, hk⟩).name)),
       if (expectedUrls timestamp 0 (files.take k)).length > 0 then
         (deleteAntragFiles o
           { s with trace := s.trace ++ succTraces timestamp rd A 0 (files.take k) ++
               failRun (blobPathname timestamp k
                 (sanitizeFileName (files.get ⟨k, hk⟩).name)) rd 0 m.toNat }
           (expectedUrls timestamp 0 (files.take k)) 3 1000).2
       else
         { s with trace := s.trace ++ succTraces timestamp rd A 0 (files.take k) ++
             failRun (blobPathname timestamp k
               (sanitizeFileName (files.get ⟨k, hk⟩).name)) rd 0 m.toNat }) := by
    rw [uploadAntragFiles, hv]
    dsimp only
    rw [if_neg hne, hloopval]
    dsimp only [catchHandler]
  by_cases hk0 : k = 0
  · subst hk0
    rw [if_neg (by omega)] at hresult
    refine ⟨_, [], hresult, ?_, rfl, fun _ => rfl, fun h0 => absurd h0 (by omega)⟩
    simp
  · have hkpos : 0 < k := by omega
    rw [if_pos (by omega)] at hresult
    obtain ⟨Δ, hΔ, hb, hd, hp⟩ := deleteAntragFiles_shape o
      { s with trace := s.trace ++ succTraces timestamp rd A 0 (files.take k) ++
          failRun (blobPathname timestamp k
            (sanitizeFileName (files.get ⟨k, hk⟩).name)) rd 0 m.toNat }
      (expectedUrls timestamp 0 (files.take k)) 3 1000
    refine ⟨_, Δ, hresult, ?_, hp, fun h0 => absurd h0 (by omega), fun _ => ⟨hb, hd⟩⟩
    rw [hΔ]


/-- C2 (amended): when the file at batch index `k` (0-indexed; `k ≥ 1`, so at
least one earlier file was stored) exhausts all `maxRetries + 1` attempts
while every earlier file eventually succeeded (file `j < k` first succeeds at
attempt `A j`), `uploadAntragFiles` invokes the deletion contract exactly
once, covering precisely the URLs stored for files `0..k-1`; every
store-level `del` it issues covers that same list; no `put` is ever issued
for a file after index `k`; and the call raises the typed file-upload error
naming the failed file — regardless of the deletion oracle, so a failing
compensating deletion never replaces that error. -/
theorem C2_rollback_on_failure (cfg : FileConfig) (o : Oracle) (s : BlobState)
    (timestamp : Nat) (files : List AFile) (maxRetries retryDelay : Int)
    (k : Nat) (A : Nat → Nat)
    (hm : 0 ≤ maxRetries) (hk : k < files.length) (hk1 : 1 ≤ k)
    (hv : validateAntragFiles cfg files = Except.ok ())
    (hfail : ∀ a : Nat, o.putOk k a = false)
    (hA : ∀ j, j < k → ((A j : Int) ≤ maxRetries ∧ o.putOk j (A j) = true ∧
      ∀ b, b < A j → o.putOk j b = false)) :
    ∃ s1 Δ,
      uploadAntragFiles cfg o s timestamp files maxRetries retryDelay =
        (Except.error (Err.appFileUpload (uploadFailMessage (files.get ⟨k, hk⟩).name)), s1) ∧
      s1.trace = s.trace ++ Δ ∧
      delBatchPayloads Δ = [expectedUrls timestamp 0 (files.take k)] ∧
      (∀ us ∈ delPayloads Δ, us = expectedUrls timestamp 0 (files.take k)) ∧
      (∀ p ∈ putPaths Δ, ∃ j, ∃ hj : j < files.length, j ≤ k ∧
        p = blobPathname timestamp j (sanitizeFileName (files.get ⟨j, hj⟩).name)) := by
  obtain ⟨s1, Δdel, hres, htr, hput, hzero, hpos⟩ :=
    uploadAntragFiles_fail_at cfg o s timestamp files maxRetries retryDelay k A
      hm hk hv hfail hA
  obtain ⟨hb, hd⟩ := hpos (by omega)
  refine ⟨s1,
    succTraces timestamp retryDelay A 0 (files.take k) ++
      failRun (blobPathname timestamp k (sanitizeFileName (files.get ⟨k, hk⟩).name))
        retryDelay 0 maxRetries.toNat ++ Δdel,
    hres, by simpa [List.append_assoc] using htr, ?_, ?_, ?_⟩
  · simp [delBatchPayloads_succTraces, delBatchPayloads_failRun, hb]
  · intro us hus
    simp only [delPayloads_append, delPayloads_succTraces, delPayloads_failRun,
      List.nil_append, List.append_nil] at hus
    exact hd us hus
  · intro p hp
    simp only [putPaths_append, List.mem_append] at hp
    rcases hp with (hp | hp) | hp
    · obtain ⟨j, hj, hpeq⟩ := putPaths_succTraces_mem timestamp retryDelay A
        (files.take k) 0 p hp
      have hjlen : j < files.length := by
        rw [List.length_take] at hj
        omega
      have hget : (files.take k).get ⟨j, hj⟩ = files.get ⟨j, hjlen⟩ := by
        simp [List.getElem_take]
      refine ⟨j, hjlen, ?_, ?_⟩
      · rw [List.length_take] at hj
        omega
      · rw [hpeq]
        simp only [Nat.zero_add]
        rw [hget]
    · rw [putPaths_failRun] at hp
      refine ⟨k, hk, le_refl k, List.eq_of_mem_replicate hp⟩
    · rw [hput] at hp
      simp at hp

/-- C2 counterexample to the claim as stated: a one-file batch whose single
file exhausts all `maxRetries + 1 = 4` attempts (the error naming that file
is raised), yet the trace contains zero deletion-contract invocations —
not exactly one — because no URL was stored for earlier files and the code
skips the compensating call entirely when `uploadedUrls` is empty. -/
theorem C2_counterexample :
    (uploadAntragFiles ⟨10, 1000000, 10000000, ["application/pdf"]⟩
        ⟨fun _ _ => false, fun _ => true⟩ ⟨0, []⟩ 0
        [⟨"a.pdf", "application/pdf", 100⟩] 3 1000).1 =
      Except.error (Err.appFileUpload (uploadFailMessage "a.pdf")) ∧
    delBatchPayloads
      (uploadAntragFiles ⟨10, 1000000, 10000000, ["application/pdf"]⟩
        ⟨fun _ _ => false, fun _ => true⟩ ⟨0, []⟩ 0
        [⟨"a.pdf", "application/pdf", 100⟩] 3 1000).2.trace = [] :=
  ⟨rfl, rfl⟩

theorem C2_rollback_on_failure_witness :
    ∃ s1 Δ,
      uploadAntragFiles ⟨10, 1000000, 10000000, ["application/pdf"]⟩
          ⟨fun i _ => i == 0, fun _ => true⟩ ⟨0, []⟩ 0
          [⟨"a b.pdf", "application/pdf", 100⟩, ⟨"c.pdf", "application/pdf", 200⟩]
          3 1000 =
        (Except.error (Err.appFileUpload (uploadFailMessage "c.pdf")), s1) ∧
      s1.trace = BlobState.trace ⟨0, []⟩ ++ Δ ∧
      delBatchPayloads Δ =
        [expectedUrls 0 0 [⟨"a b.pdf", "application/pdf", 100⟩]] ∧
      (∀ us ∈ delPayloads Δ, us = expectedUrls 0 0 [⟨"a b.pdf", "application/pdf", 100⟩]) ∧
      (∀ p ∈ putPaths Δ, ∃ j, ∃ hj : j <
          ([⟨"a b.pdf", "application/pdf", 100⟩, ⟨"c.pdf", "application/pdf", 200⟩] : List AFile).length,
        j ≤ 1 ∧
        p = blobPathname 0 j (sanitizeFileName
          (([⟨"a b.pdf", "application/pdf", 100⟩, ⟨"c.pdf", "application/pdf", 200⟩] : List AFile).get ⟨j, hj⟩).name)) :=
  C2_rollback_on_failure ⟨10, 1000000, 10000000, ["application/pdf"]⟩
    ⟨fun i _ => i == 0, fun _ => true⟩ ⟨0, []⟩ 0
    [⟨"a b.pdf", "application/pdf", 100⟩, ⟨"c.pdf", "application/pdf", 200⟩]
    3 1000 1 (fun _ => 0) (by decide) (by decide) (by decide) (by rfl)
    (fun a => rfl)
    (fun j hj => by
      have hj0 : j = 0 := by omega
      subst hj0
      exact ⟨by decide, rfl, fun b hb => absurd hb (Nat.not_lt_zero b)⟩)

/-- C5: when the file at batch index `k` permanently fails (earlier files
eventually succeeding), the trace of `uploadAntragFiles` contains — between
a prefix and a suffix that hold no `put` for that file's path — exactly the
failure run of that file: `maxRetries + 1` failed `put` attempts with the
awaited exponential-backoff delay `retryDelay * 2 ^ a` recorded between
attempt `a + 1` and attempt `a + 2` (see `failRun`), and no delay after the
last attempt; the `put` count of that run is exactly `maxRetries + 1`. -/
theorem C5_retry_backoff (cfg : FileConfig) (o : Oracle) (s : BlobState)
    (timestamp : Nat) (files : List AFile) (maxRetries retryDelay : Int)
    (k : Nat) (A : Nat → Nat)
    (hm : 0 ≤ maxRetries) (hk : k < files.length)
    (hv : validateAntragFiles cfg files = Except.ok ())
    (hfail : ∀ a : Nat, o.putOk k a = false)
    (hA : ∀ j, j < k → ((A j : Int) ≤ maxRetries ∧ o.putOk j (A j) = true ∧
      ∀ b, b < A j → o.putOk j b = false)) :
    ∃ s1 Δpre Δpost,
      uploadAntragFiles cfg o s timestamp files maxRetries retryDelay =
        (Except.error (Err.appFileUpload (uploadFailMessage (files.get ⟨k, hk⟩).name)), s1) ∧
      s1.trace = s.trace ++ Δpre ++
        failRun (blobPathname timestamp k (sanitizeFileName (files.get ⟨k, hk⟩).name))
          retryDelay 0 maxRetries.toNat ++ Δpost ∧
      blobPathname timestamp k (sanitizeFileName (files.get ⟨k, hk⟩).name) ∉ putPaths Δpre ∧
      blobPathname timestamp k (sanitizeFileName (files.get ⟨k, hk⟩).name) ∉ putPaths Δpost ∧
      putPaths (failRun (blobPathname timestamp k (sanitizeFileName (files.get ⟨k, hk⟩).name))
          retryDelay 0 maxRetries.toNat) =
        List.replicate (maxRetries.toNat + 1)
          (blobPathname timestamp k (sanitizeFileName (files.get ⟨k, hk⟩).name)) := by
  obtain ⟨s1, Δdel, hres, htr, hput, hzero, hpos⟩ :=
    uploadAntragFiles_fail_at cfg o s timestamp files maxRetries retryDelay k A
      hm hk hv hfail hA
  refine ⟨s1, succTraces timestamp retryDelay A 0 (files.take k), Δdel, hres, htr, ?_, ?_, ?_⟩
  · intro hmem
    obtain ⟨j, hj, hpeq⟩ := putPaths_succTraces_mem timestamp retryDelay A
      (files.take k) 0 _ hmem
    have hjk : j < k := by
      rw [List.length_take] at hj
      omega
    refine blobPathname_injective timestamp j k
      (sanitizeFileName ((files.take k).get ⟨j, hj⟩).name)
      (sanitizeFileName (files.get ⟨k, hk⟩).name) (by omega) ?_
    simp only [Nat.zero_add] at hpeq
    exact hpeq.symm
  · rw [hput]
    simp
  · exact putPaths_failRun _ retryDelay maxRetries.toNat 0

theorem C5_retry_backoff_witness :
    ∃ s1 Δpre Δpost,
      uploadAntragFiles ⟨10, 1000000, 10000000, ["application/pdf"]⟩
          ⟨fun _ _ => false, fun _ => true⟩ ⟨0, []⟩ 0
          [⟨"a.pdf", "application/pdf", 100⟩] 3 1000 =
        (Except.error (Err.appFileUpload (uploadFailMessage "a.pdf")), s1) ∧
      s1.trace = BlobState.trace ⟨0, []⟩ ++ Δpre ++
        failRun (blobPathname 0 0 (sanitizeFileName "a.pdf")) 1000 0 3 ++ Δpost ∧
      blobPathname 0 0 (sanitizeFileName "a.pdf") ∉ putPaths Δpre ∧
      blobPathname 0 0 (sanitizeFileName "a.pdf") ∉ putPaths Δpost ∧
      putPaths (failRun (blobPathname 0 0 (sanitizeFileName "a.pdf")) 1000 0 3) =
        List.replicate 4 (blobPathname 0 0 (sanitizeFileName "a.pdf")) :=
  C5_retry_backoff ⟨10, 1000000, 10000000, ["application/pdf"]⟩
    ⟨fun _ _ => false, fun _ => true⟩ ⟨0, []⟩ 0
    [⟨"a.pdf", "application/pdf", 100⟩] 3 1000 0 (fun _ => 0)
    (by decide) (by decide) (by rfl) (fun a => rfl)
    (fun j hj => absurd hj (by omega))

end Antrag
